import Mathlib

/-!
Verification development for the SysML v2 front-end (Langium-based parser,
scope engine and validator).  JavaScript strings are modelled as `List Char`
(`JStr`); JS string operations (`startsWith`, `substring`, `includes`,
`join`) become the corresponding list operations.  AST node identity is
modelled by a numeric id carried on each node.
-/

namespace SysML

/-- Model of a JavaScript string: a sequence of UTF-16-style characters. -/
abbrev JStr := List Char

/-- Convenience conversion from a Lean string literal to a `JStr`. -/
def strJ (s : String) : JStr := s.data

/-- The qualified-name separator `"::"` used by `scope-computation.ts`. -/
def sepNN : JStr := strJ "::"

/-- JS truthiness of an optional string (`if (name) …`): `undefined` and the
empty string are falsy, every other string is truthy. -/
def truthyName : Option JStr → Option JStr
  | some (c :: cs) => some (c :: cs)
  | _ => none

/-- Model of JS `String.prototype.includes`: `jsIncludes sub s` is true iff
`sub` occurs contiguously inside `s`. -/
def jsIncludes (sub : JStr) : JStr → Bool
  | [] => sub.isEmpty
  | c :: t => sub.isPrefixOf (c :: t) || jsIncludes sub t

/-- Visibility of an `OwningMembership` (the grammar's `visibility?` field;
`unspecified` models an absent visibility keyword). -/
inductive Vis where
  | pub | priv | prot | unspecified
deriving DecidableEq, Repr

mutual
/-- Model of an AST element (definition, usage, package body, …): node id,
whether `isPackageBody` holds for it, its optional `name`, and its `elements`
array (empty when the node has no such array). -/
inductive SElement : Type where
  | mk : Nat → Bool → Option JStr → List SMember → SElement

/-- Model of a `NamespaceElement`: an `OwningMembership` (visibility plus an
optional owned element, mirroring `element.element` possibly being absent) or
any other membership kind (imports, aliases, …). -/
inductive SMember : Type where
  | owning : Vis → Option SElement → SMember
  | other : SMember
end

def SElement.id : SElement → Nat
  | .mk i _ _ _ => i

def SElement.isPkgBody : SElement → Bool
  | .mk _ b _ _ => b

def SElement.name : SElement → Option JStr
  | .mk _ _ nm _ => nm

def SElement.elements : SElement → List SMember
  | .mk _ _ _ els => els

/-- Test for `isOwningMembership`. -/
def isOwningMember : SMember → Bool
  | .owning _ _ => true
  | .other => false

mutual
/-- Model of `SysMLScopeComputation.processNamespaceElement`: only
`OwningMembership`s are processed; `private`/`protected` memberships are
dropped entirely (descent stops); otherwise the inner element, when present,
is processed. -/
def processNamespaceElement (el : SMember) (qualifiedNameParts : List JStr) :
    List (JStr × Nat) :=
  match el with
  | .owning vis inner =>
    if vis = Vis.priv ∨ vis = Vis.prot then []
    else
      match inner with
      | some e => processDefinitionOrUsage e qualifiedNameParts
      | none => []
  | .other => []

/-- Model of `SysMLScopeComputation.processDefinitionOrUsage`: a truthy name
`n` yields an export under `n`, plus one under the `"::"`-joined qualified
name when the prefix is non-empty, then the element's children are processed
under the extended prefix (the source's `processNestedElements` branches —
package body, type/feature body, generic `elements` array — all reduce to
processing the `elements` array, since `processNamespaceElement` ignores
non-`OwningMembership` entries). -/
def processDefinitionOrUsage (e : SElement) (qualifiedNameParts : List JStr) :
    List (JStr × Nat) :=
  match e with
  | .mk i _ nm els =>
    match truthyName nm with
    | none => []
    | some n =>
      let newParts := qualifiedNameParts ++ [n]
      let qualifiedName := List.intercalate sepNN newParts
      ((n, i) :: (if qualifiedNameParts.length > 0 then [(qualifiedName, i)] else []))
        ++ processMembers els newParts

/-- Sequential processing of an `elements` array for exports. -/
def processMembers (els : List SMember) (qualifiedNameParts : List JStr) :
    List (JStr × Nat) :=
  match els with
  | [] => []
  | m :: rest =>
    processNamespaceElement m qualifiedNameParts ++ processMembers rest qualifiedNameParts
end

/-- Model of `SysMLScopeComputation.computeExports`: process every root
namespace element with the empty qualified-name prefix. -/
def computeExports (namespaceElements : List SMember) : List (JStr × Nat) :=
  processMembers namespaceElements []

mutual
/-- Traversal mirror for specification purposes: the `(prefix, element)`
pairs at which `processDefinitionOrUsage` is invoked with a truthy name,
honouring the same visibility and naming gates as the export computation. -/
def visitedMember (el : SMember) (qualifiedNameParts : List JStr) :
    List (List JStr × SElement) :=
  match el with
  | .owning vis inner =>
    if vis = Vis.priv ∨ vis = Vis.prot then []
    else
      match inner with
      | some e => visitedElement e qualifiedNameParts
      | none => []
  | .other => []

def visitedElement (e : SElement) (qualifiedNameParts : List JStr) :
    List (List JStr × SElement) :=
  match e with
  | .mk _ _ nm els =>
    match truthyName nm with
    | none => []
    | some n => (qualifiedNameParts, e) :: visitedMembers els (qualifiedNameParts ++ [n])

def visitedMembers (els : List SMember) (qualifiedNameParts : List JStr) :
    List (List JStr × SElement) :=
  match els with
  | [] => []
  | m :: rest =>
    visitedMember m qualifiedNameParts ++ visitedMembers rest qualifiedNameParts
end

/-- Elements visited (with a truthy name) by a document's export
computation, with the prefix under which each was visited. -/
def visitedDoc (namespaceElements : List SMember) : List (List JStr × SElement) :=
  visitedMembers namespaceElements []

theorem sizeOf_filter_le {α : Type} [SizeOf α] (p : α → Bool) (l : List α) :
    sizeOf (l.filter p) ≤ sizeOf l := by
  induction l with
  | nil => simp
  | cons a t ih =>
    rw [List.filter_cons]
    cases p a <;> simp only [if_true, if_false, Bool.false_eq_true,
      List.cons.sizeOf_spec] <;> omega

theorem sizeOf_elements_lt (e : SElement) : sizeOf e.elements < sizeOf e := by
  cases e with
  | mk i b nm els => simp [SElement.elements]

mutual
/-- Model of `SysMLScopeComputation.processLocalScopes`: each owned element
with a truthy name is recorded in the container's scope (as a
`(container id, name, target id)` entry) and its nested scopes are
processed; visibility is not consulted here. -/
def processLocalScopes (containerId : Nat) (elements : List SMember) :
    List (Nat × JStr × Nat) :=
  match elements with
  | [] => []
  | .owning _vis (some innerElement) :: rest =>
    (match truthyName innerElement.name with
     | some n => (containerId, n, innerElement.id) :: processNestedLocalScopes innerElement
     | none => []) ++ processLocalScopes containerId rest
  | _ :: rest => processLocalScopes containerId rest
termination_by sizeOf elements
decreasing_by
  all_goals simp_wf
  all_goals omega

/-- Model of `SysMLScopeComputation.processNestedLocalScopes`: a package body
recurses on its `elements` directly; every other container first filters its
`elements` array down to `OwningMembership`s. -/
def processNestedLocalScopes (container : SElement) : List (Nat × JStr × Nat) :=
  if container.isPkgBody then
    processLocalScopes container.id container.elements
  else
    processLocalScopes container.id (container.elements.filter isOwningMember)
termination_by sizeOf container
decreasing_by
  all_goals simp_wf
  all_goals have hf := sizeOf_filter_le isOwningMember container.elements
  all_goals have he := sizeOf_elements_lt container
  all_goals omega
end

/-- Model of `SysMLScopeComputation.computeLocalScopes`: process the root's
namespace elements with the root node as container. -/
def computeLocalScopes (rootId : Nat) (namespaceElements : List SMember) :
    List (Nat × JStr × Nat) :=
  processLocalScopes rootId namespaceElements

/-- Container node on the `$container` chain above a reference, as inspected
by `SysMLScopeProvider.collectVisibleNames`: the document's `RootNamespace`,
or any other AST node (tested with `isPackageBody`). -/
inductive ScopeNode where
  | rootNS (namespaceElements : List SMember)
  | inner (e : SElement)

/-- Names contributed by one `elements` array in `collectVisibleNames`: each
`OwningMembership` with a present, truthy-named inner element contributes the
pair `(name, element)`; visibility is not consulted. -/
def visibleMembers : List SMember → List (JStr × Nat)
  | [] => []
  | .owning _vis (some innerElement) :: rest =>
    (match truthyName innerElement.name with
     | some n => [(n, innerElement.id)]
     | none => []) ++ visibleMembers rest
  | _ :: rest => visibleMembers rest

/-- Model of `SysMLScopeProvider.collectVisibleNames`: a `RootNamespace`
contributes its namespace elements, a `PackageBody` its elements, every
other container contributes nothing. -/
def collectVisibleNames : ScopeNode → List (JStr × Nat)
  | .rootNS els => visibleMembers els
  | .inner e => if e.isPkgBody then visibleMembers e.elements else []

/-- Model of `SysMLScopeProvider.getLocalScopeDescriptions`: walk the
`$container` chain upward (the chain is given innermost-first) collecting
visible names at each level. -/
def getLocalScopeDescriptions (chain : List ScopeNode) : List (JStr × Nat) :=
  (chain.map collectVisibleNames).flatten

/-- Model of `SysMLScopeProvider.getInitialScope`: all index-manager export
descriptions first, then the local-scope descriptions of the reference's
container chain. -/
def getInitialScope (allElements : List (JStr × Nat)) (chain : List ScopeNode) :
    List (JStr × Nat) :=
  allElements ++ getLocalScopeDescriptions chain

/-- Model of `SysMLScopeProvider.getNestedScope`: keep the export entries
whose name starts with the joined previous parts followed by `"::"` and whose
remainder contains no further `"::"`, and re-enter each under that remainder
as its local name. -/
def getNestedScope (allElements : List (JStr × Nat)) (previousParts : List JStr) :
    List (JStr × Nat) :=
  let qualifiedPrefix := List.intercalate sepNN previousParts
  (allElements.filter fun desc =>
      if (qualifiedPrefix ++ sepNN).isPrefixOf desc.1 then
        !(jsIncludes sepNN (desc.1.drop (qualifiedPrefix.length + 2)))
      else false).map
    fun desc => (desc.1.drop (qualifiedPrefix.length + 2), desc.2)

/-- Model of `SysMLScopeProvider.getQualifiedNameScope`: part index `0` of a
qualified name is resolved in the initial scope, any later part in the
nested scope of the preceding parts (`parts.slice(0, index)`). -/
def getQualifiedNameScope (allElements : List (JStr × Nat)) (chain : List ScopeNode)
    (parts : List JStr) (index : Nat) : List (JStr × Nat) :=
  if index = 0 then getInitialScope allElements chain
  else getNestedScope allElements (parts.take index)

/-- Model of the scope lookup performed by the Langium runtime
(`StreamScope.getElement`, reached through `DefaultScopeProvider.createScope`):
the first description in stream order whose name equals the looked-up name. -/
def scopeGetElement (scope : List (JStr × Nat)) (name : JStr) : Option Nat :=
  (scope.find? fun desc => desc.1 == name).map fun desc => desc.2

/-! Concrete shadowing fixture: `package Outer { part def n; package Inner
{ part def n; } }`, with a reference position inside `Inner` (container
chain: the referencing element, `Inner`, `Outer`, the root namespace). -/

def shadowOuterN : SElement := SElement.mk 2 false (some (strJ "n")) []

def shadowInnerN : SElement := SElement.mk 4 false (some (strJ "n")) []

def shadowInnerPkg : SElement :=
  SElement.mk 3 true (some (strJ "Inner")) [SMember.owning Vis.pub (some shadowInnerN)]

def shadowOuterPkg : SElement :=
  SElement.mk 1 true (some (strJ "Outer"))
    [SMember.owning Vis.pub (some shadowOuterN),
     SMember.owning Vis.pub (some shadowInnerPkg)]

def shadowDoc : List SMember := [SMember.owning Vis.pub (some shadowOuterPkg)]

def shadowChain : List ScopeNode :=
  [ScopeNode.inner shadowInnerN, ScopeNode.inner shadowInnerPkg,
   ScopeNode.inner shadowOuterPkg, ScopeNode.rootNS shadowDoc]

/-! Multiplicity checker (`validation/helpers/multiplicity-checker.js`). -/

/-- Sentinel value representing an unbounded upper multiplicity (`*`). -/
def UNBOUNDED : Int := -1

/-- Model of JS whitespace (`\s`, and the whitespace skipped by `parseInt`). -/
def jsIsSpace (c : Char) : Bool := c.isWhitespace

/-- Value of a character as a digit (`0`-`9`, `a`-`z`, `A`-`Z`), as used by
JS `parseInt`. -/
def digitVal (c : Char) : Option Nat :=
  if '0' ≤ c ∧ c ≤ '9' then some (c.toNat - '0'.toNat)
  else if 'a' ≤ c ∧ c ≤ 'z' then some (c.toNat - 'a'.toNat + 10)
  else if 'A' ≤ c ∧ c ≤ 'Z' then some (c.toNat - 'A'.toNat + 10)
  else none

/-- Model of JS `parseInt(s, radix)`: skip leading whitespace, read an
optional sign, then the longest prefix of digits valid for the radix; `NaN`
(modelled as `none`) when that prefix is empty, otherwise the signed value.
Trailing non-digit characters are ignored, as in JS. -/
def jsParseInt (radix : Nat) (s : JStr) : Option Int :=
  let s1 := s.dropWhile jsIsSpace
  let signAndRest : Int × JStr :=
    match s1 with
    | '-' :: t => (-1, t)
    | '+' :: t => (1, t)
    | t => (1, t)
  let digits := signAndRest.2.takeWhile fun c => ((digitVal c).map (fun v => decide (v < radix))).getD false
  if digits = [] then none
  else some (signAndRest.1 *
    (digits.foldl (fun acc c => acc * radix + ((digitVal c).getD 0)) 0))

/-- Model of `parseMultiplicityBound`: `*` is the `UNBOUNDED` sentinel;
`0x`/`0b`/`0o` prefixes (case-insensitive) select hex/binary/octal with the
prefix stripped; otherwise decimal; an unparseable string gives `none`
(the JS `null`). -/
def parseMultiplicityBound (bound : JStr) : Option Int :=
  if bound = strJ "*" then some UNBOUNDED
  else
    let lowerBound := bound.map Char.toLower
    if (strJ "0x").isPrefixOf lowerBound then jsParseInt 16 (bound.drop 2)
    else if (strJ "0b").isPrefixOf lowerBound then jsParseInt 2 (bound.drop 2)
    else if (strJ "0o").isPrefixOf lowerBound then jsParseInt 8 (bound.drop 2)
    else jsParseInt 10 bound

/-- Model of `isUnbounded`. -/
def isUnbounded (value : Int) : Bool := value == UNBOUNDED

/-- Result record of `validateMultiplicityBounds` (`errorProperty` is set
only by the negative-lower-bound branch). -/
structure MultResult where
  isValid : Bool
  error : Option String
  errorProperty : Option String
deriving DecidableEq, Repr

/-- Lower-bound value of `validateMultiplicityBounds`: the bound string is
parsed when present and truthy, and defaults to `0` otherwise (the JS
`lowerBound ? parseMultiplicityBound(lowerBound) : 0`). -/
def lowerValOf (lowerBound : Option JStr) : Option Int :=
  match lowerBound with
  | some (c :: cs) => parseMultiplicityBound (c :: cs)
  | _ => some 0

/-- Model of `validateMultiplicityBounds`: a parsed negative non-sentinel
lower bound is reported first; then, when both bounds parsed and the upper
is not unbounded, `lower > upper` is reported; anything else is valid. -/
def validateMultiplicityBounds (lowerBound : Option JStr) (upperBound : JStr) :
    MultResult :=
  let lowerVal : Option Int := lowerValOf lowerBound
  let upperVal : Option Int := parseMultiplicityBound upperBound
  match lowerVal with
  | none => ⟨true, none, none⟩
  | some lv =>
    if lv < 0 && !(isUnbounded lv) then
      ⟨false, some "Lower bound cannot be negative", some "lowerBound"⟩
    else
      match upperVal with
      | none => ⟨true, none, none⟩
      | some uv =>
        if !(isUnbounded uv) && decide (lv > uv) then
          ⟨false,
           some s!"Lower bound ({lv}) cannot be greater than upper bound ({uv})",
           none⟩
        else ⟨true, none, none⟩

/-- One reported diagnostic of the validator: LSP severity (1 = error,
2 = warning, 3 = information, 4 = hint) and message. -/
structure SDiag where
  severity : Nat
  message : String
deriving DecidableEq, Repr

/-- The lexeme pair stored on a `MultiplicityBounds` AST node. -/
structure MultBounds where
  lowerBound : Option JStr
  upperBound : JStr
deriving DecidableEq, Repr

/-- Model of `SysMLValidator.checkMultiplicity`: report an error exactly when
the result is invalid and carries a (truthy) error message. -/
def checkMultiplicity (mult : MultBounds) : List SDiag :=
  let result := validateMultiplicityBounds mult.lowerBound mult.upperBound
  match result.isValid, result.error with
  | false, some msg => if msg ≠ "" then [⟨1, msg⟩] else []
  | _, _ => []

/-! Duplicate-name checker (`validation/helpers/duplicate-checker.js` and
`SysMLValidator.checkRootNamespace` / `checkPackageBody`). -/

/-- JS truthiness of an optional Lean `String` (absent or empty is falsy). -/
def truthyNameS : Option String → Option String
  | some s => if s = "" then none else some s
  | none => none

/-- An owned element as seen by the duplicate checker: node identity plus
its optional `name`. -/
structure VElem where
  id : Nat
  name : Option String
deriving DecidableEq, Repr

/-- A namespace element as seen by `extractInnerElements`: an
`OwningMembership` with its optional inner element, or any other membership
kind. -/
inductive VMember where
  | owning : Option VElem → VMember
  | other : VMember
deriving DecidableEq, Repr

/-- Model of `extractInnerElements`: the inner elements of the
`OwningMembership` wrappers that have one. -/
def extractInnerElements : List VMember → List VElem
  | [] => []
  | .owning (some e) :: rest => e :: extractInnerElements rest
  | _ :: rest => extractInnerElements rest

/-- Insertion-ordered map update used to model the JS `Map` of
`findDuplicateNames`: append the element to the bucket of its name, adding
a new bucket at the end for a fresh name. -/
def addToBuckets (buckets : List (String × List VElem)) (n : String) (e : VElem) :
    List (String × List VElem) :=
  match buckets with
  | [] => [(n, [e])]
  | (m, es) :: rest =>
    if m = n then (m, es ++ [e]) :: rest else (m, es) :: addToBuckets rest n e

/-- One step of the grouping loop of `findDuplicateNames`: elements with a
falsy name are skipped. -/
def bucketStep (bs : List (String × List VElem)) (e : VElem) :
    List (String × List VElem) :=
  match truthyNameS e.name with
  | some n => addToBuckets bs n e
  | none => bs

/-- The insertion-ordered `elementsByName` map of `findDuplicateNames`. -/
def bucketsOf (elements : List VElem) : List (String × List VElem) :=
  elements.foldl bucketStep []

/-- Model of `findDuplicateNames` (restricted to its `duplicates` output,
the only part `reportDuplicates` consumes): group the truthy-named elements
by name in insertion order and keep the groups with more than one element. -/
def findDuplicateNames (elements : List VElem) : List (String × List VElem) :=
  (bucketsOf elements).filter fun b => 1 < b.2.length

/-- The message built by `reportDuplicates` for a duplicate name, depending
on the presence of a (truthy) context name. -/
def dupMessage (contextName : Option String) (n : String) : String :=
  match truthyNameS contextName with
  | some ctx => "Duplicate element name '" ++ n ++ "' in " ++ ctx
  | none => "Duplicate element name: '" ++ n ++ "'"

/-- Model of `reportDuplicates`: one error per element of each duplicate
group when `reportAll`, otherwise a single error on the group's first
element. -/
def reportDuplicates (duplicates : List (String × List VElem)) (reportAll : Bool)
    (contextName : Option String) : List (String × VElem) :=
  (duplicates.map fun b =>
    if reportAll then b.2.map fun e => (dupMessage contextName b.1, e)
    else
      match b.2 with
      | [] => []
      | e :: _ => [(dupMessage contextName b.1, e)]).flatten

/-- Model of `SysMLValidator.checkRootNamespace`: report all occurrences,
with no context name. -/
def checkRootNamespace (namespaceElements : List VMember) : List (String × VElem) :=
  reportDuplicates (findDuplicateNames (extractInnerElements namespaceElements))
    true none

/-- Model of `SysMLValidator.checkPackageBody`: report the first occurrence
only, in the context `package '<name or anonymous>'` (the package name falls
back to `<anonymous>` by nullish coalescing). -/
def checkPackageBody (pkgName : Option String) (elements : List VMember) :
    List (String × VElem) :=
  reportDuplicates (findDuplicateNames (extractInnerElements elements))
    false (some ("package '" ++ pkgName.getD "<anonymous>" ++ "'"))

/-! Specialization checker (`validation/helpers/specialization-checker.ts`)
and the validation registry dispatch of `validator.ts`. -/

/-- The `$type` tags relevant to definition/usage checks.  The registry in
`registerValidationChecks` installs checks only for `PartDefinition`,
`TypeBodyRule`, `PartUsage` and `FeatureBodyRule` among these; other
definition kinds (for example `ItemDefinition`) have no registered check. -/
inductive DefKind where
  | partDefinition | typeBodyRule | partUsage | featureBodyRule
  | itemDefinition | actionDefinition | otherKind
deriving DecidableEq, Repr

/-- A definition or usage node as seen by the registered checks. -/
structure DefNode where
  kind : DefKind
  name : Option String
  specializations : Option (List (List String))
  isAbstract : Bool
  cstStartsAbstract : Bool
  bodyElementCount : Option Nat
  elementCount : Nat
  featureTypeCount : Nat
deriving DecidableEq, Repr

/-- Model of `checkCircularSpecialization`: with present specializations and
a truthy self name, each single-part qualified name equal to the self name
yields one error message `<elementType> '<name>' cannot specialize itself`.
Every call site in `validator.ts` leaves `elementType` at its default,
`"Part definition"`. -/
def checkCircularSpecialization (specializations : Option (List (List String)))
    (selfName : Option String) (elementType : String) : List String :=
  match specializations, truthyNameS selfName with
  | some specs, some self =>
    (specs.filter fun spec => spec.length == 1 && spec.headD "" == self).map
      fun _ => elementType ++ " '" ++ self ++ "' cannot specialize itself"
  | _, _ => []

/-- Model of `SysMLValidator.checkPartDefinition` (guarded on the node's
`$type` being `PartDefinition`): the empty-abstract hint, then the circular
specialization errors. -/
def checkPartDefinition (d : DefNode) : List SDiag :=
  if d.kind = DefKind.partDefinition then
    (if d.isAbstract then
      let hasNoMembers :=
        match d.bodyElementCount with
        | none => true
        | some k => k == 0
      match hasNoMembers, truthyNameS d.name with
      | true, some nm =>
        [⟨4, "Abstract part definition '" ++ nm ++ "' has no members"⟩]
      | _, _ => []
    else [])
    ++ (checkCircularSpecialization d.specializations d.name "Part definition").map
        fun msg => ⟨1, msg⟩
  else []

/-- Model of `SysMLValidator.checkTypeBodyRule` (guarded on `$type` being
`TypeBodyRule`): the empty-abstract hint (also accepting an `abstract`
prefix recovered from the concrete syntax text), then the circular
specialization errors. -/
def checkTypeBodyRule (d : DefNode) : List SDiag :=
  if d.kind = DefKind.typeBodyRule then
    (if (d.isAbstract || d.cstStartsAbstract) && d.elementCount == 0 then
      [⟨4, "Abstract part definition '" ++ d.name.getD "<anonymous>"
        ++ "' has no members"⟩]
    else [])
    ++ (checkCircularSpecialization d.specializations d.name "Part definition").map
        fun msg => ⟨1, msg⟩
  else []

/-- Model of `SysMLValidator.checkPartUsage` (guarded on `$type` being
`PartUsage`): hint on a truthy-named usage without feature types. -/
def checkPartUsage (d : DefNode) : List SDiag :=
  if d.kind = DefKind.partUsage then
    if d.featureTypeCount == 0 then
      match truthyNameS d.name with
      | some nm => [⟨4, "Part '" ++ nm ++ "' has no explicit type"⟩]
      | none => []
    else []
  else []

/-- Dispatch of the validation registry on a definition/usage node: exactly
the checks registered for the node's `$type` run (`FeatureBodyRule`'s
registered check is an explicit no-op in the source); node kinds without a
registered check produce no diagnostics. -/
def runDefNodeChecks (d : DefNode) : List SDiag :=
  checkPartDefinition d ++ checkTypeBodyRule d ++ checkPartUsage d

/-! Parser-error simplification and document validation summary
(`utils/parser-utils.ts`). -/

/-- Test of the anchored regex `^Expecting[^:]*:` used by
`simplifyParserError`: the message starts with `Expecting` and a colon
occurs somewhere after it. -/
def expectingShape (message : JStr) : Bool :=
  (strJ "Expecting").isPrefixOf message && (message.drop 9).contains ':'

/-- Case-insensitive prefix test (for the `i`-flagged `but found:` regex). -/
def ciPrefix (pat s : JStr) : Bool :=
  (pat.map Char.toLower).isPrefixOf (s.map Char.toLower)

/-- Character class `[^'"}\n]` of the `but found:` capture group. -/
def inFoundClass (c : Char) : Bool :=
  !(c == '\'' || c == '"' || c == '\x7d' || c == '\n')

/-- Attempt of the regex `but found:\s*['"]?([^'"}\n]+)['"]?` at the start
of `s`, including the backtracking of the greedy `\s*`: when the attempt
after the full whitespace run fails but the run is non-empty, the engine
re-tries one character earlier, and that whitespace character (which lies in
the capture class) becomes the capture. -/
def matchFoundAt (s : JStr) : Option JStr :=
  if ciPrefix (strJ "but found:") s then
    let afterLit := s.drop 10
    let ws := afterLit.takeWhile jsIsSpace
    let rest := afterLit.drop ws.length
    let attempt : Option JStr :=
      match rest with
      | c :: t =>
        if c == '\'' || c == '"' then
          let g := t.takeWhile inFoundClass
          if g = [] then none else some g
        else
          let g := rest.takeWhile inFoundClass
          if g = [] then none else some g
      | [] => none
    match attempt with
    | some g => some g
    | none => if h : ws ≠ [] then some [ws.getLast h] else none
  else none

/-- Leftmost search for the `but found:` pattern. -/
def searchFound : JStr → Option JStr
  | [] => none
  | c :: t =>
    match matchFoundAt (c :: t) with
    | some g => some g
    | none => searchFound t

/-- Model of JS `String.prototype.trim`. -/
def jsTrim (s : JStr) : JStr :=
  ((s.dropWhile jsIsSpace).reverse.dropWhile jsIsSpace).reverse

/-- The `foundToken` of `simplifyParserError`: the trimmed capture of the
`but found:` regex, or `unexpected token` when there is no match or the
trimmed capture is empty (JS `||` on a falsy string). -/
def foundToken (message : JStr) : JStr :=
  match searchFound message with
  | some g => let t := jsTrim g; if t = [] then strJ "unexpected token" else t
  | none => strJ "unexpected token"

/-- Attempt of the repeated regex `\d+\.\s*\[([^\]]+)\]` at the start of
`s`: a non-empty digit run, a dot, optional whitespace, then a non-empty
bracketed group; returns the capture and the remainder of the string after
the match. -/
def matchAltAt (s : JStr) : Option (JStr × JStr) :=
  let ds := s.takeWhile Char.isDigit
  if ds = [] then none
  else
    match s.drop ds.length with
    | '.' :: r2 =>
      let r3 := r2.dropWhile jsIsSpace
      match r3 with
      | '[' :: r4 =>
        let body := r4.takeWhile fun c => !(c == ']')
        if body = [] then none
        else
          match r4.drop body.length with
          | ']' :: r6 => some (body, r6)
          | _ => none
      | _ => none
    | _ => none

/-- Leftmost match of the alternative regex within the suffix `s`: the
scan the regex engine performs from the current `lastIndex`, returning the
capture and the remainder of the string after the match. -/
def execAltSuffix (s : JStr) : Option (JStr × JStr) :=
  match matchAltAt s with
  | some (g, rest) => some (g, rest)
  | none =>
    match s with
    | [] => none
    | _ :: t => execAltSuffix t

/-- Model of `altRegex.exec(message)` for the `g`-flagged regex.  The
mutable `lastIndex` is represented by the suffix of `message` it points at
(`current`).  On success the returned `lastIndex` points after the match;
on failure ECMAScript resets `lastIndex` of a global regex to `0`, so the
returned suffix is the whole message. -/
def jsExecAlt (message current : JStr) : Option JStr × JStr :=
  match execAltSuffix current with
  | some (g, rest) => (some g, rest)
  | none => (none, message)

/-- Model of the loop
`while ((match = altRegex.exec(message)) && alternatives.length < 5)`:
`exec` runs first in the condition, so a successful match found when five
alternatives are already collected is consumed without being pushed, and a
failed `exec` exits the loop with `lastIndex` reset to `0`.  Returns the
collected alternatives together with the `lastIndex` suffix left behind.
A successful iteration consumes at least one character, so
`message.length + 1` fuel always suffices. -/
def altLoopF : Nat → JStr → JStr → List JStr → List JStr × JStr
  | 0, _, current, acc => (acc, current)
  | Nat.succ fuel, message, current, acc =>
    match jsExecAlt message current with
    | (some g, next) =>
      if acc.length < 5 then altLoopF fuel message next (acc ++ [g])
      else (acc, next)
    | (none, next) => (acc, next)

/-- Fuelled chain of all (non-overlapping) matches of the alternative
regex; with `s.length` fuel the chain is complete, so `scanAlts` below is
the specification-side list of every alternative present in a message. -/
def scanAltsF : Nat → JStr → List JStr
  | 0, _ => []
  | Nat.succ fuel, s =>
    match execAltSuffix s with
    | some (g, rest) => g :: scanAltsF fuel rest
    | none => []

/-- All captures of the alternative regex in `message`, leftmost first. -/
def scanAlts (message : JStr) : List JStr := scanAltsF message.length message

/-- Model of `simplifyParserError`: messages not of the `Expecting…:` shape
pass through; otherwise the loop collects at most five alternative captures
and one more `exec` decides the trailing `, ...`.  Because a failed `exec`
resets the global regex's `lastIndex`, a loop that ended by exhausting the
matches (one to five alternatives) leaves `lastIndex` at `0` and the probe
re-finds the first match, while a loop that ended on the length check (six
or more alternatives) has already consumed the sixth match, so the probe
succeeds exactly when a seventh exists.  With no captures the message is
truncated to 200 characters (plus `...`) when longer than 200. -/
def simplifyParserError (message : JStr) : JStr :=
  if expectingShape message then
    let loopOut := altLoopF (message.length + 1) message message []
    let alternatives := loopOut.1
    if 0 < alternatives.length then
      strJ "Unexpected '" ++ foundToken message ++ strJ "'. Expected: "
        ++ List.intercalate (strJ ", ") alternatives
        ++ (if (jsExecAlt message loopOut.2).1.isSome then strJ ", ..." else [])
    else if 200 < message.length then message.take 200 ++ strJ "..." else message
  else message

/-- An LSP diagnostic as consumed by `validateDocument`: optional severity
(1 error, 2 warning, 3 information, 4 hint) and message. -/
structure LspDiag where
  severity : Option Nat
  message : JStr
deriving DecidableEq, Repr

/-- The fields of the `ValidationResult` record built by `validateDocument`
from a document's diagnostics. -/
structure ValidationSummary where
  diagnostics : List LspDiag
  errors : List LspDiag
  warnings : List LspDiag
  hints : List LspDiag
  isValid : Bool
deriving DecidableEq, Repr

/-- Model of the result assembly in `validateDocument`: messages are
simplified, the severity filters populate `errors`/`warnings`/`hints`, and
`isValid` holds iff no diagnostic has severity 1. -/
def validateDocumentResult (docDiagnostics : List LspDiag) : ValidationSummary :=
  let diagnostics := docDiagnostics.map fun d =>
    ⟨d.severity, simplifyParserError d.message⟩
  { diagnostics := diagnostics
    errors := diagnostics.filter fun d => d.severity == some 1
    warnings := diagnostics.filter fun d => d.severity == some 2
    hints := diagnostics.filter fun d => d.severity == some 3 || d.severity == some 4
    isValid := !(diagnostics.any fun d => d.severity == some 1) }

/-!
Supporting lemmas and claim theorems.
-/

theorem jsIncludes_iff (sub s : JStr) : jsIncludes sub s = true ↔ sub <:+: s := by
  induction s with
  | nil =>
    simp only [jsIncludes, List.isEmpty_iff, List.infix_nil]
  | cons c t ih =>
    simp only [jsIncludes, Bool.or_eq_true, List.isPrefixOf_iff_prefix, ih,
      List.infix_cons_iff]

-- Sanity checks: the export traversal on a nested document produces both
-- simple and qualified entries in source push order, and the JS numeric
-- parsing model honours every notation (plus the failure case).
example :
    computeExports
      [ .owning .pub (some (.mk 1 true (some (strJ "Outer"))
          [ .owning .pub (some (.mk 2 false (some (strJ "n")) []))
          , .owning .pub (some (.mk 3 true (some (strJ "Inner"))
              [ .owning .pub (some (.mk 4 false (some (strJ "n")) [])) ])) ])) ] =
    [(strJ "Outer", 1), (strJ "n", 2), (strJ "Outer::n", 2),
     (strJ "Inner", 3), (strJ "Outer::Inner", 3),
     (strJ "n", 4), (strJ "Outer::Inner::n", 4)] := by decide

example : parseMultiplicityBound (strJ "*") = some (-1) := by decide

example : parseMultiplicityBound (strJ "10") = some 10 := by decide

example : parseMultiplicityBound (strJ "0xFF") = some 255 := by decide

example : parseMultiplicityBound (strJ "0b10") = some 2 := by decide

example : parseMultiplicityBound (strJ "0o10") = some 8 := by decide

example : parseMultiplicityBound (strJ "abc") = none := by decide

/-- C7: for every document processed by `validateDocument`, the returned
`isValid` field is true iff the document's diagnostic list contains zero
diagnostics of severity 1 (Error); diagnostics of severity 2, 3 or 4 never
make `isValid` false. -/
theorem c7_isValid_iff_no_errors (docDiagnostics : List LspDiag) :
    ((validateDocumentResult docDiagnostics).isValid = true ↔
      docDiagnostics.countP (fun d => d.severity == some 1) = 0)
    ∧ ((∀ d ∈ docDiagnostics, d.severity ≠ some 1) →
        (validateDocumentResult docDiagnostics).isValid = true) := by
  have hiff : (validateDocumentResult docDiagnostics).isValid = true ↔
      docDiagnostics.countP (fun d => d.severity == some 1) = 0 := by
    simp [validateDocumentResult, List.any_map, Function.comp,
      List.countP_eq_zero, List.any_eq_true]
  exact ⟨hiff, fun h => hiff.mpr (List.countP_eq_zero.mpr (by simpa using h))⟩

/-- Witness for C7 at a concrete diagnostic list: a single warning leaves
the document valid, a single error does not. -/
theorem c7_isValid_iff_no_errors_witness :
    (validateDocumentResult [⟨some 2, strJ "w"⟩]).isValid = true
    ∧ (validateDocumentResult [⟨some 1, strJ "e"⟩]).isValid = false :=
  ⟨(c7_isValid_iff_no_errors [⟨some 2, strJ "w"⟩]).1.mpr (by decide), by decide⟩

/-- C4: for every `MultiplicityBounds` node whose upper bound parses to a
finite value `U` and whose lower bound parses to `L` (default 0 when
absent), the validator emits an error iff `L > U`, and that error's message
is exactly `Lower bound (L) cannot be greater than upper bound (U)`.  The
hypothesis `0 ≤ L ∨ L = -1` records that grammar-produced bound lexemes are
unsigned integer literals or `*`. -/
theorem c4_multiplicity_error_iff (mult : MultBounds) (L U : Int)
    (hU : parseMultiplicityBound mult.upperBound = some U) (hUfin : U ≠ -1)
    (hL : lowerValOf mult.lowerBound = some L) (hLsign : 0 ≤ L ∨ L = -1) :
    (checkMultiplicity mult ≠ [] ↔ L > U)
    ∧ (L > U → checkMultiplicity mult =
        [⟨1, s!"Lower bound ({L}) cannot be greater than upper bound ({U})"⟩]) := by
  have hcond : (L < 0 && !(isUnbounded L)) = false := by
    rcases hLsign with h0 | hm1
    · have hnl : ¬ (L < 0) := not_lt.mpr h0
      simp [hnl]
    · simp [isUnbounded, UNBOUNDED, hm1]
  have hruns : validateMultiplicityBounds mult.lowerBound mult.upperBound =
      if L > U then
        ⟨false, some s!"Lower bound ({L}) cannot be greater than upper bound ({U})",
         none⟩
      else ⟨true, none, none⟩ := by
    unfold validateMultiplicityBounds
    rw [hL, hU]
    simp only [hcond, Bool.false_eq_true, if_false]
    have hub : isUnbounded U = false := by
      simp [isUnbounded, UNBOUNDED, hUfin]
    by_cases hgt : L > U
    · simp [hub, hgt]
    · simp [hub, hgt]
  have hmsg : (s!"Lower bound ({L}) cannot be greater than upper bound ({U})" :
      String) ≠ "" := by
    intro hc
    have := congrArg String.data hc
    simp [String.data_append] at this
  constructor
  · constructor
    · intro hne
      by_contra hgt
      have : checkMultiplicity mult = [] := by
        unfold checkMultiplicity
        rw [hruns, if_neg hgt]
      exact hne this
    · intro hgt
      unfold checkMultiplicity
      rw [hruns, if_pos hgt]
      simp [hmsg]
  · intro hgt
    unfold checkMultiplicity
    rw [hruns, if_pos hgt]
    simp [hmsg]

/-- Witness for C4 at the spec's seed scenario `[10..5]`: one error with the
exact message. -/
theorem c4_multiplicity_error_iff_witness :
    checkMultiplicity ⟨some (strJ "10"), strJ "5"⟩ =
      [⟨1, "Lower bound (10) cannot be greater than upper bound (5)"⟩] := by
  have h := (c4_multiplicity_error_iff ⟨some (strJ "10"), strJ "5"⟩ 10 5
    (by decide) (by decide) (by decide) (Or.inl (by decide))).2 (by decide)
  rw [h]
  decide

/-- C10 counterexample: a lower bound of `*` does produce a diagnostic when
the upper bound parses below the sentinel (upper `-2`), and an unparseable
upper bound (`abc`) does not prevent the negative-lower-bound diagnostic
(lower `-7`); so neither the `*`-lower case nor the unparseable-bound case
is diagnostic-free for every companion bound. -/
theorem c10_counterexample :
    parseMultiplicityBound (strJ "*") = some (-1)
    ∧ checkMultiplicity ⟨some (strJ "*"), strJ "-2"⟩ ≠ []
    ∧ parseMultiplicityBound (strJ "abc") = none
    ∧ checkMultiplicity ⟨some (strJ "-7"), strJ "abc"⟩ =
        [⟨1, "Lower bound cannot be negative"⟩] := by decide

/-- C10 amended: `*` as lower bound parses to the sentinel `-1` and yields
no diagnostic for any upper bound that is unparseable or parses to a value
`≥ -1` (in particular any grammar-producible upper bound); an unparseable
lower bound yields `null` and no diagnostic; an unparseable upper bound
yields no diagnostic provided the lower bound does not parse to a negative
non-sentinel value. -/
theorem c10_amended (mult : MultBounds) :
    (parseMultiplicityBound (strJ "*") = some (-1))
    ∧ (mult.lowerBound = some (strJ "*") →
        (∀ U, parseMultiplicityBound mult.upperBound = some U → -1 ≤ U →
          checkMultiplicity mult = [])
        ∧ (parseMultiplicityBound mult.upperBound = none →
            checkMultiplicity mult = []))
    ∧ (lowerValOf mult.lowerBound = none → checkMultiplicity mult = [])
    ∧ (parseMultiplicityBound mult.upperBound = none →
        ∀ L, lowerValOf mult.lowerBound = some L → 0 ≤ L ∨ L = -1 →
          checkMultiplicity mult = []) := by
  refine ⟨by decide, ?_, ?_, ?_⟩
  · intro hlb
    have hlv : lowerValOf mult.lowerBound = some (-1) := by
      rw [hlb]; decide
    constructor
    · intro U hu hge
      unfold checkMultiplicity validateMultiplicityBounds
      rw [hlv, hu]
      simp only
      rw [if_neg (by simp [isUnbounded, UNBOUNDED])]
      have : ¬((-1 : Int) > U) := by omega
      simp [this]
    · intro hu
      unfold checkMultiplicity validateMultiplicityBounds
      rw [hlv, hu]
      simp [isUnbounded, UNBOUNDED]
  · intro hlv
    unfold checkMultiplicity validateMultiplicityBounds
    rw [hlv]
  · intro hu L hl hsign
    have hcond : (L < 0 && !(isUnbounded L)) = false := by
      rcases hsign with h0 | hm1
      · have hnl : ¬ (L < 0) := not_lt.mpr h0
        simp [hnl]
      · simp [isUnbounded, UNBOUNDED, hm1]
    unfold checkMultiplicity validateMultiplicityBounds
    rw [hl, hu]
    simp [hcond]

/-- Witness for C10 (amended) at concrete bounds `[*..3]`, `[abc..7]` and
`[0..abc]`: none of them produces a diagnostic. -/
theorem c10_amended_witness :
    checkMultiplicity ⟨some (strJ "*"), strJ "3"⟩ = []
    ∧ checkMultiplicity ⟨some (strJ "abc"), strJ "7"⟩ = []
    ∧ checkMultiplicity ⟨some (strJ "0"), strJ "abc"⟩ = [] :=
  ⟨((c10_amended ⟨some (strJ "*"), strJ "3"⟩).2.1 rfl).1 3 (by decide) (by decide),
   (c10_amended ⟨some (strJ "abc"), strJ "7"⟩).2.2.1 (by decide),
   (c10_amended ⟨some (strJ "0"), strJ "abc"⟩).2.2.2 (by decide) 0 (by decide)
     (Or.inl (by decide))⟩

/-- C6 counterexample: a self-specializing definition of a kind other than
`PartDefinition`/`TypeBodyRule` (here an `ItemDefinition` named `B` with
specialization `B`) produces no diagnostic at all — in particular no error
`Item definition 'B' cannot specialize itself` with the kind substituted. -/
theorem c6_counterexample :
    runDefNodeChecks
      ⟨DefKind.itemDefinition, some "B", some [["B"]], false, false, none, 0, 0⟩ = []
    ∧ SDiag.mk 1 "Item definition 'B' cannot specialize itself" ∉
        runDefNodeChecks
          ⟨DefKind.itemDefinition, some "B", some [["B"]], false, false, none, 0, 0⟩ := by
  decide

/-- C6 amended: only nodes validated as `PartDefinition` or `TypeBodyRule`
are checked for self-specialization, and the message always uses the default
kind text `Part definition`: such a node with (truthy) name `n` whose
specializations contain the single-part qualified name `n` yields the error
`Part definition 'n' cannot specialize itself`; in particular
`part def A :> A;` yields exactly that one error. -/
theorem c6_amended (d : DefNode) (nm : String)
    (hk : d.kind = DefKind.partDefinition ∨ d.kind = DefKind.typeBodyRule)
    (hn : truthyNameS d.name = some nm)
    (hs : ∃ specs, d.specializations = some specs ∧ [nm] ∈ specs) :
    SDiag.mk 1 ("Part definition '" ++ nm ++ "' cannot specialize itself") ∈
      runDefNodeChecks d
    ∧ runDefNodeChecks
        ⟨DefKind.partDefinition, some "A", some [["A"]], false, false, none, 0, 0⟩ =
      [⟨1, "Part definition 'A' cannot specialize itself"⟩] := by
  refine ⟨?_, by decide⟩
  obtain ⟨specs, hspec, hself⟩ := hs
  have hmsg : ("Part definition '" ++ nm ++ "' cannot specialize itself") ∈
      checkCircularSpecialization d.specializations d.name "Part definition" := by
    rw [hspec]
    unfold checkCircularSpecialization
    rw [hn]
    exact List.mem_map.mpr ⟨[nm], List.mem_filter.mpr ⟨hself, by simp⟩, rfl⟩
  have hdiag : SDiag.mk 1 ("Part definition '" ++ nm ++ "' cannot specialize itself") ∈
      (checkCircularSpecialization d.specializations d.name "Part definition").map
        fun msg => SDiag.mk 1 msg :=
    List.mem_map.mpr ⟨_, hmsg, rfl⟩
  unfold runDefNodeChecks
  rcases hk with hk | hk
  · refine List.mem_append.mpr (Or.inl (List.mem_append.mpr (Or.inl ?_)))
    unfold checkPartDefinition
    rw [if_pos hk]
    exact List.mem_append.mpr (Or.inr hdiag)
  · refine List.mem_append.mpr (Or.inl (List.mem_append.mpr (Or.inr ?_)))
    unfold checkTypeBodyRule
    rw [if_pos hk]
    exact List.mem_append.mpr (Or.inr hdiag)

/-- Witness for C6 (amended) at the seed input `part def A :> A;`. -/
theorem c6_amended_witness :
    SDiag.mk 1 "Part definition 'A' cannot specialize itself" ∈
      runDefNodeChecks
        ⟨DefKind.partDefinition, some "A", some [["A"]], false, false, none, 0, 0⟩ :=
  (c6_amended
    ⟨DefKind.partDefinition, some "A", some [["A"]], false, false, none, 0, 0⟩ "A"
    (Or.inl rfl) (by decide) ⟨[["A"]], rfl, by decide⟩).1

theorem mem_getNestedScope (allElements : List (JStr × Nat)) (previousParts : List JStr)
    (r : JStr) (i : Nat) :
    (r, i) ∈ getNestedScope allElements previousParts ↔
      ¬ sepNN <:+: r
      ∧ (List.intercalate sepNN previousParts ++ sepNN ++ r, i) ∈ allElements := by
  unfold getNestedScope
  simp only [List.mem_map, List.mem_filter]
  have hlen : (List.intercalate sepNN previousParts ++ sepNN).length =
      (List.intercalate sepNN previousParts).length + 2 := by
    simp [sepNN, strJ]
  constructor
  · rintro ⟨⟨q, j⟩, ⟨hin, hcond⟩, heq⟩
    by_cases hpre :
        ((List.intercalate sepNN previousParts ++ sepNN).isPrefixOf q) = true
    · rw [if_pos hpre] at hcond
      obtain ⟨t, ht⟩ := List.isPrefixOf_iff_prefix.mp hpre
      have hdrop : q.drop ((List.intercalate sepNN previousParts).length + 2) = t := by
        rw [← ht, ← hlen, List.drop_left]
      obtain ⟨hr, hi⟩ := Prod.mk.injEq .. ▸ heq
      subst hi
      have hrt : r = t := by rw [← hr, hdrop]
      subst hrt
      refine ⟨?_, ?_⟩
      · intro hinf
        have := (jsIncludes_iff sepNN r).mpr hinf
        rw [hdrop] at hcond
        simp [this] at hcond
      · rw [ht]
        exact hin
    · rw [if_neg hpre] at hcond
      exact absurd hcond (by simp)
  · rintro ⟨hninf, hmem⟩
    refine ⟨(List.intercalate sepNN previousParts ++ sepNN ++ r, i), ⟨?_, ?_⟩, ?_⟩
    · exact hmem
    · have hpre : ((List.intercalate sepNN previousParts ++ sepNN).isPrefixOf
          (List.intercalate sepNN previousParts ++ sepNN ++ r)) = true := by
        rw [ List.isPrefixOf_iff_prefix]
        exact List.prefix_append _ _
      rw [if_pos hpre]
      show (!jsIncludes sepNN
        ((List.intercalate sepNN previousParts ++ sepNN ++ r).drop
          ((List.intercalate sepNN previousParts).length + 2))) = true
      rw [← hlen, List.drop_left]
      have hjs : jsIncludes sepNN r = false :=
        Bool.eq_false_iff.mpr fun h => hninf ((jsIncludes_iff sepNN r).mp h)
      simp [hjs]
    · show ((List.intercalate sepNN previousParts ++ sepNN ++ r).drop
          ((List.intercalate sepNN previousParts).length + 2),
        (List.intercalate sepNN previousParts ++ sepNN ++ r, i).2) = (r, i)
      rw [← hlen, List.drop_left]

/-- C2: for every qualified-name reference and part index `i > 0`, the scope
used to resolve part `i` contains exactly those export entries whose name
starts with the joined previous parts followed by `::` and whose remainder
contains no further `::`, each entered under that remainder; part index `0`
is resolved in the combined initial scope instead. -/
theorem c2_qualified_scope (allElements : List (JStr × Nat)) (chain : List ScopeNode)
    (parts : List JStr) (index : Nat) (hpos : 0 < index) :
    getQualifiedNameScope allElements chain parts index
        = getNestedScope allElements (parts.take index)
    ∧ (∀ r i, (r, i) ∈ getQualifiedNameScope allElements chain parts index ↔
        ¬ sepNN <:+: r
        ∧ (List.intercalate sepNN (parts.take index) ++ sepNN ++ r, i) ∈ allElements)
    ∧ getQualifiedNameScope allElements chain parts 0
        = getInitialScope allElements chain := by
  have hne : index ≠ 0 := Nat.pos_iff_ne_zero.mp hpos
  have h1 : getQualifiedNameScope allElements chain parts index
      = getNestedScope allElements (parts.take index) := by
    unfold getQualifiedNameScope
    rw [if_neg hne]
  refine ⟨h1, fun r i => ?_, by unfold getQualifiedNameScope; rw [if_pos rfl]⟩
  rw [h1]
  exact mem_getNestedScope allElements (parts.take index) r i

/-- Witness for C2 on a concrete export table: resolving part index 1 of
`A::B` sees exactly the direct children of `A`, under their local names. -/
theorem c2_qualified_scope_witness :
    (strJ "B", 2) ∈ getQualifiedNameScope
      [(strJ "A", 1), (strJ "A::B", 2), (strJ "A::B::C", 3)] []
      [strJ "A", strJ "B"] 1
    ∧ (strJ "B::C", 3) ∉ getQualifiedNameScope
      [(strJ "A", 1), (strJ "A::B", 2), (strJ "A::B::C", 3)] []
      [strJ "A", strJ "B"] 1 := by
  constructor
  · exact ((c2_qualified_scope
      [(strJ "A", 1), (strJ "A::B", 2), (strJ "A::B::C", 3)] []
      [strJ "A", strJ "B"] 1 (by decide)).2.1 (strJ "B") 2).mpr (by decide)
  · intro hmem
    have h := ((c2_qualified_scope
      [(strJ "A", 1), (strJ "A::B", 2), (strJ "A::B::C", 3)] []
      [strJ "A", strJ "B"] 1 (by decide)).2.1 (strJ "B::C") 3).mp hmem
    exact absurd h.1 (by decide)

/-- C9: an element without a (truthy) name terminates both export
computation and local-scope computation at that element: the export
traversal and the local-scope traversal of the membership owning it produce
nothing, so no descendant of it — even a named public one — can appear in
the document's exports or in any local-scope entry; for a document whose
root owns just that element, both computed tables are empty. -/
theorem c9_unnamed_terminates (e : SElement) (qualifiedNameParts : List JStr)
    (containerId : Nat) (vis : Vis)
    (h : truthyName e.name = none) :
    processDefinitionOrUsage e qualifiedNameParts = []
    ∧ visitedElement e qualifiedNameParts = []
    ∧ processLocalScopes containerId [SMember.owning vis (some e)] = []
    ∧ computeExports [SMember.owning vis (some e)] = []
    ∧ computeLocalScopes containerId [SMember.owning vis (some e)] = [] := by
  obtain ⟨i, b, nm, els⟩ := e
  rw [SElement.name] at h
  have h1 : processDefinitionOrUsage (SElement.mk i b nm els) qualifiedNameParts = [] := by
    unfold processDefinitionOrUsage
    rw [h]
  have h3 : processLocalScopes containerId
      [SMember.owning vis (some (SElement.mk i b nm els))] = [] := by
    unfold processLocalScopes
    rw [SElement.name, h]
    simp [processLocalScopes]
  refine ⟨h1, ?_, h3, ?_, h3⟩
  · unfold visitedElement
    rw [h]
  · show processMembers [SMember.owning vis (some (SElement.mk i b nm els))] [] = []
    unfold processMembers processNamespaceElement
    by_cases hv : vis = Vis.priv ∨ vis = Vis.prot
    · simp [hv, processMembers]
    · simp only [if_neg hv]
      rw [show processDefinitionOrUsage (SElement.mk i b nm els) [] = [] by
        unfold processDefinitionOrUsage; rw [h]]
      simp [processMembers]

/-- Witness for C9: an anonymous package owning a public, named part
definition contributes nothing to exports or local scopes. -/
theorem c9_unnamed_terminates_witness :
    computeExports
      [SMember.owning Vis.pub (some (SElement.mk 1 true none
        [SMember.owning Vis.pub (some (SElement.mk 2 false (some (strJ "Pub")) []))]))]
      = []
    ∧ computeLocalScopes 0
      [SMember.owning Vis.pub (some (SElement.mk 1 true none
        [SMember.owning Vis.pub (some (SElement.mk 2 false (some (strJ "Pub")) []))]))]
      = [] :=
  ⟨(c9_unnamed_terminates
      (SElement.mk 1 true none
        [SMember.owning Vis.pub (some (SElement.mk 2 false (some (strJ "Pub")) []))])
      [] 0 Vis.pub rfl).2.2.2.1,
   (c9_unnamed_terminates
      (SElement.mk 1 true none
        [SMember.owning Vis.pub (some (SElement.mk 2 false (some (strJ "Pub")) []))])
      [] 0 Vis.pub rfl).2.2.2.2⟩

theorem intercalate_append_singleton {α : Type} (sep : List α) (p : List (List α))
    (n : List α) (hp : p ≠ []) :
    List.intercalate sep (p ++ [n]) = List.intercalate sep p ++ sep ++ n := by
  induction p with
  | nil => exact absurd rfl hp
  | cons a t ih =>
    cases t with
    | nil => simp [List.intercalate]
    | cons b t2 =>
      have hbt : (b :: t2 : List (List α)) ≠ [] := by simp
      have step : List.intercalate sep ((a :: b :: t2) ++ [n])
          = a ++ (sep ++ List.intercalate sep ((b :: t2) ++ [n])) := by
        simp [List.intercalate, List.intersperse]
      rw [step, ih hbt]
      simp [List.intercalate, List.intersperse, List.append_assoc]

mutual
theorem exportsVisited_member (m : SMember) (qparts p : List JStr) (e : SElement)
    (n : JStr) (hv : (p, e) ∈ visitedMember m qparts)
    (hn : truthyName e.name = some n) :
    (n, e.id) ∈ processNamespaceElement m qparts
    ∧ (p ≠ [] → (List.intercalate sepNN p ++ sepNN ++ n, e.id)
        ∈ processNamespaceElement m qparts) :=
  match m with
  | .owning vis inner => by
    unfold visitedMember at hv
    unfold processNamespaceElement
    by_cases hvis : vis = Vis.priv ∨ vis = Vis.prot
    · rw [if_pos hvis] at hv
      exact absurd hv (List.not_mem_nil _)
    · rw [if_neg hvis] at hv
      rw [if_neg hvis]
      cases inner with
      | some e1 => exact exportsVisited_element e1 qparts p e n hv hn
      | none => exact absurd hv (List.not_mem_nil _)
  | .other => by
    unfold visitedMember at hv
    exact absurd hv (List.not_mem_nil _)

theorem exportsVisited_element (e0 : SElement) (qparts p : List JStr) (e : SElement)
    (n : JStr) (hv : (p, e) ∈ visitedElement e0 qparts)
    (hn : truthyName e.name = some n) :
    (n, e.id) ∈ processDefinitionOrUsage e0 qparts
    ∧ (p ≠ [] → (List.intercalate sepNN p ++ sepNN ++ n, e.id)
        ∈ processDefinitionOrUsage e0 qparts) :=
  match e0 with
  | .mk i b nm els => by
    unfold visitedElement at hv
    unfold processDefinitionOrUsage
    cases h0 : truthyName nm with
    | none =>
      rw [h0] at hv
      exact absurd hv (List.not_mem_nil _)
    | some n0 =>
      rw [h0] at hv
      rcases List.mem_cons.mp hv with heq | hmem
      · have hp : p = qparts := congrArg Prod.fst heq
        have he : e = SElement.mk i b nm els := congrArg Prod.snd heq
        have hid : e.id = i := by rw [he, SElement.id]
        have hn0 : n0 = n := by
          rw [he, SElement.name, h0] at hn
          exact Option.some.inj hn
        subst hp
        rw [hid, ← hn0]
        constructor
        · exact List.mem_append.mpr (Or.inl (List.mem_cons_self _ _))
        · intro hpne
          have hlen : 0 < p.length := List.length_pos.mpr hpne
          have hqn : List.intercalate sepNN (p ++ [n0])
              = List.intercalate sepNN p ++ sepNN ++ n0 :=
            intercalate_append_singleton sepNN p n0 hpne
          have hsingle : (List.intercalate sepNN (p ++ [n0]), i) ∈
              (if p.length > 0 then [(List.intercalate sepNN (p ++ [n0]), i)]
               else ([] : List (JStr × Nat))) := by
            rw [if_pos hlen]
            exact List.mem_singleton.mpr rfl
          rw [← hqn]
          exact List.mem_append.mpr (Or.inl (List.mem_cons_of_mem _ hsingle))
      · have ih := exportsVisited_members els (qparts ++ [n0]) p e n hmem hn
        exact ⟨List.mem_append.mpr (Or.inr ih.1),
          fun hpne => List.mem_append.mpr (Or.inr (ih.2 hpne))⟩

theorem exportsVisited_members (els : List SMember) (qparts p : List JStr)
    (e : SElement) (n : JStr) (hv : (p, e) ∈ visitedMembers els qparts)
    (hn : truthyName e.name = some n) :
    (n, e.id) ∈ processMembers els qparts
    ∧ (p ≠ [] → (List.intercalate sepNN p ++ sepNN ++ n, e.id)
        ∈ processMembers els qparts) :=
  match els with
  | [] => by
    unfold visitedMembers at hv
    exact absurd hv (List.not_mem_nil _)
  | m :: rest => by
    unfold visitedMembers at hv
    unfold processMembers
    rcases List.mem_append.mp hv with h | h
    · have ih := exportsVisited_member m qparts p e n h hn
      exact ⟨List.mem_append.mpr (Or.inl ih.1),
        fun hpne => List.mem_append.mpr (Or.inl (ih.2 hpne))⟩
    · have ih := exportsVisited_members rest qparts p e n h hn
      exact ⟨List.mem_append.mpr (Or.inr ih.1),
        fun hpne => List.mem_append.mpr (Or.inr (ih.2 hpne))⟩
end

/-- C1: every element visited by the export computation with a (truthy) name
`n` under qualified-name prefix `p` is exported under the simple name `n`
and, when the prefix is non-empty, under the qualified name
`p.join("::") ++ "::" ++ n`; and a `private` or `protected` membership
contributes no export entries and no visits at all, so descent terminates
there. -/
theorem c1_exports (namespaceElements : List SMember) (p : List JStr) (e : SElement)
    (n : JStr) (hv : (p, e) ∈ visitedDoc namespaceElements)
    (hn : truthyName e.name = some n) :
    ((n, e.id) ∈ computeExports namespaceElements
      ∧ (p ≠ [] → (List.intercalate sepNN p ++ sepNN ++ n, e.id)
          ∈ computeExports namespaceElements))
    ∧ ∀ (vis : Vis) (inner : Option SElement) (q : List JStr),
        vis = Vis.priv ∨ vis = Vis.prot →
        processNamespaceElement (SMember.owning vis inner) q = []
        ∧ visitedMember (SMember.owning vis inner) q = [] := by
  refine ⟨exportsVisited_members namespaceElements [] p e n hv hn, ?_⟩
  intro vis inner q hvis
  constructor
  · unfold processNamespaceElement
    rw [if_pos hvis]
  · unfold visitedMember
    rw [if_pos hvis]

/-- Witness for C1 on the document `package A { part def B; }`: `B` is
visited under the prefix `["A"]` and exported under both `B` and `A::B`;
and a private membership contributes nothing. -/
theorem c1_exports_witness :
    (strJ "B", 2) ∈ computeExports
      [SMember.owning Vis.pub (some (SElement.mk 1 true (some (strJ "A"))
        [SMember.owning Vis.pub (some (SElement.mk 2 false (some (strJ "B")) []))]))]
    ∧ (List.intercalate sepNN [strJ "A"] ++ sepNN ++ strJ "B", 2) ∈ computeExports
      [SMember.owning Vis.pub (some (SElement.mk 1 true (some (strJ "A"))
        [SMember.owning Vis.pub (some (SElement.mk 2 false (some (strJ "B")) []))]))]
    ∧ processNamespaceElement (SMember.owning Vis.priv
        (some (SElement.mk 3 false (some (strJ "Hidden")) []))) [] = [] := by
  have hv : ([strJ "A"], SElement.mk 2 false (some (strJ "B")) []) ∈ visitedDoc
      [SMember.owning Vis.pub (some (SElement.mk 1 true (some (strJ "A"))
        [SMember.owning Vis.pub (some (SElement.mk 2 false (some (strJ "B")) []))]))] :=
    List.Mem.tail _ (List.Mem.head _)
  have h := c1_exports
    [SMember.owning Vis.pub (some (SElement.mk 1 true (some (strJ "A"))
      [SMember.owning Vis.pub (some (SElement.mk 2 false (some (strJ "B")) []))]))]
    [strJ "A"] (SElement.mk 2 false (some (strJ "B")) []) (strJ "B") hv rfl
  exact ⟨h.1.1, h.1.2 (by simp),
    (h.2 Vis.priv (some (SElement.mk 3 false (some (strJ "Hidden")) [])) []
      (Or.inl rfl)).1⟩

/-- C3 counterexample: in the shadowing document `package Outer { part def
n; package Inner { part def n; } }`, resolving the simple reference `n`
from a position inside `Inner` yields the OUTER `n` (node 2), not the inner
one (node 4): the initial scope lists all exports (in pre-order document
order) before any local-scope entry, and the first entry named `n` is the
outer element's export. -/
theorem c3_counterexample :
    scopeGetElement
      (getQualifiedNameScope (computeExports shadowDoc) shadowChain [strJ "n"] 0)
      (strJ "n") = some shadowOuterN.id
    ∧ shadowOuterN.id ≠ shadowInnerN.id := by decide

/-- C3 amended: resolving `Outer::n` from inside `Inner` does yield the
outer element; but the simple name `n` resolves to the first matching entry
of the combined initial scope — all document exports in pre-order document
order, then local entries innermost-first — so when the shadowed name is
exported, the earliest export entry (here the outer `n`, which precedes the
inner one in document order) wins; inner entries do not shadow exported
outer ones. -/
theorem c3_amended :
    (∀ (allElements : List (JStr × Nat)) (chain : List ScopeNode) (nm : JStr),
      scopeGetElement (getInitialScope allElements chain) nm =
        ((allElements.find? fun d => d.1 == nm).or
          ((getLocalScopeDescriptions chain).find? fun d => d.1 == nm)).map
          fun d => d.2)
    ∧ scopeGetElement
        (getQualifiedNameScope (computeExports shadowDoc) shadowChain
          [strJ "Outer", strJ "n"] 1) (strJ "n") = some shadowOuterN.id
    ∧ scopeGetElement
        (getQualifiedNameScope (computeExports shadowDoc) shadowChain
          [strJ "n"] 0) (strJ "n") = some shadowOuterN.id := by
  refine ⟨?_, by decide, by decide⟩
  intro allElements chain nm
  unfold scopeGetElement getInitialScope
  rw [List.find?_append]

/-- Specification predicate: every element stored in a bucket has that
bucket's name as its truthy name. -/
def bucketsNamed (bs : List (String × List VElem)) : Prop :=
  ∀ p ∈ bs, ∀ e ∈ p.2, truthyNameS e.name = some p.1

theorem addToBuckets_map_fst (bs : List (String × List VElem)) (n : String) (e : VElem) :
    (addToBuckets bs n e).map Prod.fst =
      if n ∈ bs.map Prod.fst then bs.map Prod.fst else bs.map Prod.fst ++ [n] := by
  induction bs with
  | nil => simp [addToBuckets]
  | cons b rest ih =>
    obtain ⟨m, es⟩ := b
    simp only [addToBuckets]
    by_cases hmn : m = n
    · subst hmn
      simp
    · rw [if_neg hmn]
      simp only [List.map_cons, ih]
      by_cases hm : n ∈ rest.map Prod.fst
      · rw [if_pos hm, if_pos]
        simp [hm]
      · rw [if_neg hm, if_neg]
        · simp
        · simp only [List.mem_cons]
          push_neg
          exact ⟨fun hc => hmn hc.symm, hm⟩

theorem addToBuckets_nodup (bs : List (String × List VElem)) (n : String) (e : VElem)
    (hnd : (bs.map Prod.fst).Nodup) : ((addToBuckets bs n e).map Prod.fst).Nodup := by
  rw [addToBuckets_map_fst]
  by_cases h : n ∈ bs.map Prod.fst
  · rw [if_pos h]
    exact hnd
  · rw [if_neg h]
    simp [List.nodup_append, hnd, h]

theorem addToBuckets_named (bs : List (String × List VElem)) (n : String) (e : VElem)
    (hb : bucketsNamed bs) (he : truthyNameS e.name = some n) :
    bucketsNamed (addToBuckets bs n e) := by
  induction bs with
  | nil =>
    intro p hp e1 he1
    rw [addToBuckets] at hp
    have hps : p = (n, [e]) := List.mem_singleton.mp hp
    subst hps
    have he1e : e1 = e := List.mem_singleton.mp he1
    subst he1e
    exact he
  | cons b rest ih =>
    obtain ⟨m, es⟩ := b
    have hbhead : ∀ e1 ∈ es, truthyNameS e1.name = some m :=
      fun e1 h1 => hb (m, es) (List.mem_cons_self _ _) e1 h1
    have hbrest : bucketsNamed rest := fun p hp => hb p (List.mem_cons_of_mem _ hp)
    intro p hp e1 he1
    simp only [addToBuckets] at hp
    by_cases hmn : m = n
    · rw [if_pos hmn] at hp
      rcases List.mem_cons.mp hp with heq | hrest
      · subst heq
        rcases List.mem_append.mp he1 with h1 | h1
        · exact hbhead e1 h1
        · have he1e : e1 = e := List.mem_singleton.mp h1
          subst he1e
          rw [he, hmn]
      · exact hbrest p hrest e1 he1
    · rw [if_neg hmn] at hp
      rcases List.mem_cons.mp hp with heq | hrest
      · subst heq
        exact hbhead e1 he1
      · exact ih hbrest p hrest e1 he1

theorem bucketsOf_invariant (elements : List VElem) :
    ((bucketsOf elements).map Prod.fst).Nodup ∧ bucketsNamed (bucketsOf elements) := by
  have main : ∀ (l : List VElem) (acc : List (String × List VElem)),
      (acc.map Prod.fst).Nodup → bucketsNamed acc →
      ((l.foldl bucketStep acc).map Prod.fst).Nodup
        ∧ bucketsNamed (l.foldl bucketStep acc) := by
    intro l
    induction l with
    | nil =>
      intro acc h1 h2
      exact ⟨h1, h2⟩
    | cons e rest ih =>
      intro acc h1 h2
      simp only [List.foldl_cons]
      apply ih
      · unfold bucketStep
        cases hn : truthyNameS e.name with
        | none => exact h1
        | some n => exact addToBuckets_nodup acc n e h1
      · unfold bucketStep
        cases hn : truthyNameS e.name with
        | none => exact h2
        | some n => exact addToBuckets_named acc n e h2 hn
  exact main elements [] (by simp) (fun p hp => absurd hp (List.not_mem_nil _))

theorem dupMessage_inj (contextName : Option String) {m n : String}
    (h : dupMessage contextName m = dupMessage contextName n) : m = n := by
  unfold dupMessage at h
  rcases hc : truthyNameS contextName with _ | ctx
  · rw [hc] at h
    have hd := congrArg String.data h
    simp only [String.data_append, List.append_assoc] at hd
    exact String.ext (List.append_cancel_right (List.append_cancel_left hd))
  · rw [hc] at h
    have hd := congrArg String.data h
    simp only [String.data_append, List.append_assoc] at hd
    exact String.ext (List.append_cancel_right (List.append_cancel_left hd))

theorem bucketReport_countP_zero (m : String) (fs : List VElem) (reportAll : Bool)
    (contextName : Option String) (n : String) (hmn : m ≠ n) :
    (if reportAll then fs.map fun e => (dupMessage contextName m, e)
     else match fs with
       | [] => ([] : List (String × VElem))
       | e :: _ => [(dupMessage contextName m, e)]).countP
      (fun d => d.1 == dupMessage contextName n) = 0 := by
  have hmsg : (dupMessage contextName m == dupMessage contextName n) = false := by
    refine beq_eq_false_iff_ne.mpr fun hc => hmn (dupMessage_inj contextName hc)
  cases reportAll
  · cases fs with
    | nil => rfl
    | cons e t => simp [hmsg]
  · refine List.countP_eq_zero.mpr ?_
    intro d hd
    obtain ⟨e1, _, hfe⟩ := List.mem_map.mp (by simpa using hd)
    rw [← hfe]
    simpa using hmsg

theorem reportDuplicates_countP_zero (ds : List (String × List VElem))
    (reportAll : Bool) (contextName : Option String) (n : String)
    (hnot : n ∉ ds.map Prod.fst) :
    (reportDuplicates ds reportAll contextName).countP
      (fun d => d.1 == dupMessage contextName n) = 0 := by
  induction ds with
  | nil => rfl
  | cons b rest ih =>
    obtain ⟨m, fs⟩ := b
    have hmn : m ≠ n := fun hc => hnot (by simp [hc])
    have hrest : n ∉ rest.map Prod.fst := fun hc => hnot (by simp [hc])
    simp only [reportDuplicates, List.map_cons, List.flatten_cons, List.countP_append]
    have htail : (List.map (fun b =>
        if reportAll then b.2.map fun e => (dupMessage contextName b.1, e)
        else match b.2 with
          | [] => []
          | e :: _ => [(dupMessage contextName b.1, e)]) rest).flatten
        = reportDuplicates rest reportAll contextName := rfl
    rw [htail, ih hrest, bucketReport_countP_zero m fs reportAll contextName n hmn]

theorem reportDuplicates_countP (ds : List (String × List VElem)) (reportAll : Bool)
    (contextName : Option String) (n : String) (es : List VElem)
    (hnd : (ds.map Prod.fst).Nodup) (hmem : (n, es) ∈ ds) (hne : es ≠ []) :
    (reportDuplicates ds reportAll contextName).countP
        (fun d => d.1 == dupMessage contextName n)
      = if reportAll then es.length else 1 := by
  induction ds with
  | nil => exact absurd hmem (List.not_mem_nil _)
  | cons b rest ih =>
    obtain ⟨m, fs⟩ := b
    rw [List.map_cons] at hnd
    have hndc := List.nodup_cons.mp hnd
    simp only [reportDuplicates, List.map_cons, List.flatten_cons, List.countP_append]
    have htail : (List.map (fun b =>
        if reportAll then b.2.map fun e => (dupMessage contextName b.1, e)
        else match b.2 with
          | [] => []
          | e :: _ => [(dupMessage contextName b.1, e)]) rest).flatten
        = reportDuplicates rest reportAll contextName := rfl
    rw [htail]
    rcases List.mem_cons.mp hmem with heq | hrest
    · have hm : m = n := (congrArg Prod.fst heq).symm
      have hf : fs = es := (congrArg Prod.snd heq).symm
      subst hm
      subst hf
      rw [reportDuplicates_countP_zero rest reportAll contextName m hndc.1]
      cases reportAll
      · obtain ⟨e0, t0, he0⟩ := List.exists_cons_of_ne_nil hne
        subst he0
        simp
      · simp only [if_true]
        rw [Nat.add_zero]
        have hlm : (fs.map fun e => (dupMessage contextName m, e)).length = fs.length :=
          List.length_map _ _
        rw [← hlm]
        refine List.countP_eq_length.mpr ?_
        intro d hd
        obtain ⟨e1, _, hfe⟩ := List.mem_map.mp hd
        rw [← hfe]
        simp
    · have hmn : m ≠ n := by
        intro hc
        exact hndc.1 (hc ▸ List.mem_map.mpr ⟨(n, es), hrest, rfl⟩)
      rw [bucketReport_countP_zero m fs reportAll contextName n hmn,
        ih hndc.2 hrest, Nat.zero_add]

theorem reportDuplicates_mem_all (ds : List (String × List VElem))
    (contextName : Option String) (n : String) (es : List VElem)
    (hmem : (n, es) ∈ ds) (e : VElem) (he : e ∈ es) :
    (dupMessage contextName n, e) ∈ reportDuplicates ds true contextName := by
  unfold reportDuplicates
  refine List.mem_flatten.mpr ⟨es.map fun e1 => (dupMessage contextName n, e1), ?_, ?_⟩
  · exact List.mem_map.mpr ⟨(n, es), hmem, by simp⟩
  · exact List.mem_map.mpr ⟨e, he, rfl⟩

theorem reportDuplicates_mem_first (ds : List (String × List VElem))
    (contextName : Option String) (n : String) (first : VElem) (rest' : List VElem)
    (hmem : (n, first :: rest') ∈ ds) :
    (dupMessage contextName n, first) ∈ reportDuplicates ds false contextName := by
  unfold reportDuplicates
  refine List.mem_flatten.mpr
    ⟨[(dupMessage contextName n, first)], ?_, List.mem_singleton.mpr rfl⟩
  exact List.mem_map.mpr ⟨(n, first :: rest'), hmem, by simp⟩

theorem reportDuplicates_named (ds : List (String × List VElem)) (reportAll : Bool)
    (contextName : Option String) (hnamed : bucketsNamed ds) :
    ∀ d ∈ reportDuplicates ds reportAll contextName, truthyNameS d.2.name ≠ none := by
  intro d hd
  unfold reportDuplicates at hd
  obtain ⟨l, hl, hdl⟩ := List.mem_flatten.mp hd
  obtain ⟨b, hb, hfb⟩ := List.mem_map.mp hl
  subst hfb
  cases reportAll
  · simp only [if_false, Bool.false_eq_true] at hdl
    cases hb2 : b.2 with
    | nil =>
      rw [hb2] at hdl
      exact absurd hdl (List.not_mem_nil _)
    | cons e t =>
      rw [hb2] at hdl
      have hde : d = (dupMessage contextName b.1, e) := List.mem_singleton.mp hdl
      subst hde
      have : truthyNameS e.name = some b.1 := hnamed b hb e (hb2 ▸ List.mem_cons_self _ _)
      simp [this]
  · simp only [if_true] at hdl
    obtain ⟨e, he, hfe⟩ := List.mem_map.mp hdl
    subst hfe
    have : truthyNameS e.name = some b.1 := hnamed b hb e he
    simp [this]

/-- C5: for a group of owned elements sharing a non-empty name `n`, the root
namespace check emits one error per offending element with message
`Duplicate element name: '<n>'`, while the package-body check emits exactly
one error anchored on the first occurrence only with message
`Duplicate element name '<n>' in package '<pkg or anonymous>'`; elements
without a (truthy) name are never reported in either case. -/
theorem c5_duplicate_names (namespaceElements : List VMember) (pkgName : Option String)
    (n : String) (es : List VElem)
    (hmem : (n, es) ∈ findDuplicateNames (extractInnerElements namespaceElements)) :
    ((∀ e ∈ es, (dupMessage none n, e) ∈ checkRootNamespace namespaceElements)
      ∧ (checkRootNamespace namespaceElements).countP
          (fun d => d.1 == dupMessage none n) = es.length)
    ∧ (∃ first rest', es = first :: rest'
        ∧ (dupMessage (some ("package '" ++ pkgName.getD "<anonymous>" ++ "'")) n,
            first) ∈ checkPackageBody pkgName namespaceElements
        ∧ (checkPackageBody pkgName namespaceElements).countP
            (fun d => d.1 ==
              dupMessage (some ("package '" ++ pkgName.getD "<anonymous>" ++ "'")) n)
          = 1)
    ∧ (∀ d ∈ checkRootNamespace namespaceElements, truthyNameS d.2.name ≠ none)
    ∧ (∀ d ∈ checkPackageBody pkgName namespaceElements, truthyNameS d.2.name ≠ none)
    := by
  have hmf := List.mem_filter.mp hmem
  have hbuckets := hmf.1
  have hlen : 1 < es.length := by simpa using hmf.2
  have hne : es ≠ [] := by
    intro hc
    rw [hc] at hlen
    simp at hlen
  have hinv := bucketsOf_invariant (extractInnerElements namespaceElements)
  have hndkeys : ((findDuplicateNames (extractInnerElements namespaceElements)).map
      Prod.fst).Nodup :=
    List.Nodup.sublist (List.Sublist.map Prod.fst (List.filter_sublist _)) hinv.1
  have hnamed : bucketsNamed (findDuplicateNames (extractInnerElements namespaceElements)) :=
    fun p hp => hinv.2 p (List.mem_filter.mp hp).1
  obtain ⟨first, rest', hes⟩ := List.exists_cons_of_ne_nil hne
  refine ⟨⟨?_, ?_⟩, ⟨first, rest', hes, ?_, ?_⟩, ?_, ?_⟩
  · intro e he
    exact reportDuplicates_mem_all _ none n es hmem e he
  · have := reportDuplicates_countP _ true none n es hndkeys hmem hne
    simpa using this
  · exact reportDuplicates_mem_first _ _ n first rest' (hes ▸ hmem)
  · have := reportDuplicates_countP _ false
      (some ("package '" ++ pkgName.getD "<anonymous>" ++ "'")) n es hndkeys hmem hne
    simpa using this
  · exact reportDuplicates_named _ true none hnamed
  · exact reportDuplicates_named _ false _ hnamed

/-- Witness for C5 at the spec's seed scenarios `package P; package P;` and
`package P { part def A; part def A; }`: two root errors, one package error
on the first occurrence. -/
theorem c5_duplicate_names_witness :
    (checkRootNamespace
      [VMember.owning (some ⟨0, some "P"⟩), VMember.owning (some ⟨1, some "P"⟩)]
      = [("Duplicate element name: 'P'", ⟨0, some "P"⟩),
         ("Duplicate element name: 'P'", ⟨1, some "P"⟩)])
    ∧ (checkPackageBody (some "P")
        [VMember.owning (some ⟨0, some "A"⟩), VMember.owning (some ⟨1, some "A"⟩)]
      = [("Duplicate element name 'A' in package 'P'", ⟨0, some "A"⟩)])
    ∧ (checkRootNamespace
        [VMember.owning (some ⟨0, some "P"⟩), VMember.owning (some ⟨1, some "P"⟩)]).countP
        (fun d => d.1 == dupMessage none "P") = 2 := by
  refine ⟨by decide, by decide, ?_⟩
  have h := (c5_duplicate_names
    [VMember.owning (some ⟨0, some "P"⟩), VMember.owning (some ⟨1, some "P"⟩)]
    none "P" [⟨0, some "P"⟩, ⟨1, some "P"⟩] (by decide)).1.2
  simpa using h

/-- A successful match of the alternative regex consumes at least one
character: the remainder is strictly shorter. -/
theorem matchAltAt_length_lt (s g rest : JStr) (h : matchAltAt s = some (g, rest)) :
    rest.length < s.length := by
  simp only [matchAltAt] at h
  split at h
  · exact absurd h (by simp)
  · rename_i hds
    split at h
    · rename_i r2 heq1
      split at h
      · rename_i r4 heq2
        split at h
        · exact absurd h (by simp)
        · rename_i hbody
          split at h
          · rename_i r6 heq3
            have hrest : r6 = rest := congrArg Prod.snd (Option.some.inj h)
            rw [← hrest]
            have l1 : (s.takeWhile Char.isDigit).length ≤ s.length :=
              (List.takeWhile_prefix _).length_le
            have l2 := congrArg List.length heq1
            have l3 := congrArg List.length heq2
            have l4 := congrArg List.length heq3
            have l5 : (r2.dropWhile jsIsSpace).length ≤ r2.length :=
              (List.dropWhile_suffix _).length_le
            have l6 : (r4.takeWhile fun c => !(c == ']')).length ≤ r4.length :=
              (List.takeWhile_prefix _).length_le
            have l7 : 1 ≤ (s.takeWhile Char.isDigit).length :=
              List.length_pos.mpr hds
            simp only [List.length_drop, List.length_cons] at l2 l3 l4
            omega
          · exact absurd h (by simp)
      · exact absurd h (by simp)
    · exact absurd h (by simp)

/-- A successful `exec` over a suffix consumes at least one character. -/
theorem execAltSuffix_length_lt (s g rest : JStr)
    (h : execAltSuffix s = some (g, rest)) : rest.length < s.length := by
  induction s with
  | nil => simp [execAltSuffix, matchAltAt] at h
  | cons c t ih =>
    rw [execAltSuffix] at h
    cases hm : matchAltAt (c :: t) with
    | some gr =>
      rw [hm] at h
      obtain ⟨g1, r1⟩ := gr
      have hgr : (g1, r1) = (g, rest) := Option.some.inj h
      obtain ⟨hg, hr⟩ := Prod.mk.inj hgr
      subst hg
      subst hr
      exact matchAltAt_length_lt (c :: t) g1 r1 hm
    | none =>
      rw [hm] at h
      have := ih h
      simp only [List.length_cons]
      omega

/-- When `exec` fails on a suffix, the capture chain from it is empty at
any fuel. -/
theorem scanAltsF_of_none (s : JStr) (hexec : execAltSuffix s = none) :
    ∀ m, scanAltsF m s = [] := by
  intro m
  cases m with
  | zero => rfl
  | succ m1 =>
    rw [scanAltsF, hexec]

/-- Any fuel at least the suffix length computes the full capture chain. -/
theorem scanAltsF_fuel (s : JStr) (n : Nat) (hn : s.length ≤ n) :
    scanAltsF n s = scanAltsF s.length s := by
  cases hexec : execAltSuffix s with
  | none => rw [scanAltsF_of_none s hexec, scanAltsF_of_none s hexec]
  | some gr =>
    obtain ⟨g, rest⟩ := gr
    have hlt := execAltSuffix_length_lt s g rest hexec
    cases n with
    | zero =>
      have : s.length = 0 := by omega
      omega
    | succ n1 =>
      obtain ⟨L, hL⟩ : ∃ L, s.length = L + 1 := ⟨s.length - 1, by omega⟩
      rw [hL, scanAltsF, scanAltsF, hexec]
      show g :: scanAltsF n1 rest = g :: scanAltsF L rest
      have h1 : scanAltsF n1 rest = scanAltsF rest.length rest :=
        scanAltsF_fuel rest n1 (by omega)
      have h2 : scanAltsF L rest = scanAltsF rest.length rest :=
        scanAltsF_fuel rest L (by omega)
      rw [h1, h2]
termination_by s.length
decreasing_by all_goals omega

/-- The capture chain of a suffix is empty exactly when `exec` fails on
it. -/
theorem scanAlts_nil_iff (s : JStr) :
    scanAltsF s.length s = [] ↔ execAltSuffix s = none := by
  cases hexec : execAltSuffix s with
  | none => simp [scanAltsF_of_none s hexec]
  | some gr =>
    obtain ⟨g, rest⟩ := gr
    have hlt := execAltSuffix_length_lt s g rest hexec
    obtain ⟨L, hL⟩ : ∃ L, s.length = L + 1 := ⟨s.length - 1, by omega⟩
    rw [hL, scanAltsF, hexec]
    simp

/-- The match component of `jsExecAlt` ignores the reset string and is the
capture of `exec` on the current suffix. -/
theorem jsExecAlt_fst (message current : JStr) :
    (jsExecAlt message current).1 =
      (execAltSuffix current).map fun gr => gr.1 := by
  rw [jsExecAlt]
  cases execAltSuffix current with
  | none => rfl
  | some gr => rfl

/-- Correspondence of the collection loop with the full capture chain: the
collected alternatives extend `acc` by the next `5 - acc.length` captures,
and the `hasMore` probe on the leftover `lastIndex` succeeds exactly when
either the chain was exhausted with `lastIndex` reset to `0` and the whole
message has some match, or at least two captures beyond the collected ones
exist (the first of them was consumed by the loop's final condition
`exec`). -/
theorem altLoopF_spec (M s : JStr) (acc : List JStr) (fuel : Nat)
    (hfuel : s.length < fuel) (hacc : acc.length ≤ 5) :
    (altLoopF fuel M s acc).1 = acc ++ (scanAltsF s.length s).take (5 - acc.length)
    ∧ ((execAltSuffix (altLoopF fuel M s acc).2).isSome = true ↔
        ((scanAltsF s.length s).length ≤ 5 - acc.length
            ∧ (execAltSuffix M).isSome = true)
        ∨ 5 - acc.length + 2 ≤ (scanAltsF s.length s).length) := by
  cases fuel with
  | zero => omega
  | succ f =>
    cases hexec : execAltSuffix s with
    | none =>
      have hstep : altLoopF (f + 1) M s acc = (acc, M) := by
        rw [altLoopF, jsExecAlt, hexec]
      rw [hstep, scanAltsF_of_none s hexec]
      simp
    | some gr =>
      obtain ⟨g, rest⟩ := gr
      have hlt := execAltSuffix_length_lt s g rest hexec
      obtain ⟨L, hL⟩ : ∃ L, s.length = L + 1 := ⟨s.length - 1, by omega⟩
      have hscan : scanAltsF s.length s = g :: scanAltsF rest.length rest := by
        rw [hL, scanAltsF, hexec]
        show g :: scanAltsF L rest = _
        rw [scanAltsF_fuel rest L (by omega)]
      by_cases hlen : acc.length < 5
      · have hstep : altLoopF (f + 1) M s acc = altLoopF f M rest (acc ++ [g]) := by
          rw [altLoopF, jsExecAlt, hexec]
          show (if acc.length < 5 then altLoopF f M rest (acc ++ [g])
            else (acc, rest)) = _
          rw [if_pos hlen]
        have ih := altLoopF_spec M rest (acc ++ [g]) f (by omega)
          (by simp only [List.length_append, List.length_cons, List.length_nil]; omega)
        rw [hstep, hscan]
        constructor
        · rw [ih.1]
          have hk : 5 - acc.length = (5 - (acc ++ [g]).length) + 1 := by
            simp only [List.length_append, List.length_cons, List.length_nil]
            omega
          rw [hk, List.take_succ_cons]
          simp [List.append_assoc]
        · rw [ih.2]
          simp only [List.length_append, List.length_cons, List.length_nil]
          constructor
          · rintro (⟨h1, h2⟩ | h1)
            · exact Or.inl ⟨by omega, h2⟩
            · exact Or.inr (by omega)
          · rintro (⟨h1, h2⟩ | h1)
            · exact Or.inl ⟨by omega, h2⟩
            · exact Or.inr (by omega)
      · have hacc5 : acc.length = 5 := by omega
        have hstep : altLoopF (f + 1) M s acc = (acc, rest) := by
          rw [altLoopF, jsExecAlt, hexec]
          show (if acc.length < 5 then altLoopF f M rest (acc ++ [g])
            else (acc, rest)) = _
          rw [if_neg hlen]
        rw [hstep, hscan]
        have hrest := scanAlts_nil_iff rest
        constructor
        · simp [hacc5]
        · simp only [hacc5, List.length_cons, Nat.sub_self]
          constructor
          · intro hsome
            refine Or.inr ?_
            have hne : execAltSuffix rest ≠ none := by
              intro hc
              rw [hc] at hsome
              simp at hsome
            have hxne : scanAltsF rest.length rest ≠ [] :=
              fun hc => hne (hrest.mp hc)
            have := List.length_pos.mpr hxne
            omega
          · rintro (⟨h1, _⟩ | h1)
            · omega
            · have hxne : scanAltsF rest.length rest ≠ [] := by
                intro hc
                rw [hc] at h1
                simp at h1
              have hne : execAltSuffix rest ≠ none :=
                fun hc => hxne (hrest.mpr hc)
              exact Option.isSome_iff_ne_none.mpr hne
termination_by s.length
decreasing_by all_goals omega

/-- C8 (amended): for every parser error message of the verbose Chevrotain
`Expecting…:` shape with at least one alternative capture, the
simplification lists the first five captures and appends `, ...` exactly
when the total number of captures is not exactly six: for one to five
captures the loop exits on a failed `exec`, which resets the global
regex's `lastIndex` to `0`, so the `hasMore` probe re-finds the first
match; with exactly six the sixth was consumed by the loop's final
condition `exec` and the probe fails; with seven or more the probe finds
the seventh.  When no captures exist the message is truncated to 200
characters (with `...` appended) when longer than 200, and otherwise
unchanged. -/
theorem c8_amended (message : JStr) (hshape : expectingShape message = true) :
    (scanAlts message ≠ [] →
      simplifyParserError message =
        strJ "Unexpected '" ++ foundToken message ++ strJ "'. Expected: "
          ++ List.intercalate (strJ ", ") ((scanAlts message).take 5)
          ++ (if (scanAlts message).length = 6 then [] else strJ ", ...")
      ∧ ((scanAlts message).take 5).length ≤ 5)
    ∧ (scanAlts message = [] →
      simplifyParserError message =
        if 200 < message.length then message.take 200 ++ strJ "..."
        else message) := by
  have hspec := altLoopF_spec message message [] (message.length + 1)
    (by omega) (by simp)
  have h1 : (altLoopF (message.length + 1) message message []).1
      = (scanAlts message).take 5 := by
    have := hspec.1
    simpa [scanAlts] using this
  have h2 : ((jsExecAlt message
        (altLoopF (message.length + 1) message message []).2).1.isSome = true
      ↔ ((scanAlts message).length ≤ 5 ∧ (execAltSuffix message).isSome = true)
        ∨ 7 ≤ (scanAlts message).length) := by
    rw [jsExecAlt_fst]
    have hmap : ∀ (o : Option (JStr × JStr)),
        (Option.map (fun gr => gr.1) o).isSome = o.isSome := by
      intro o
      cases o <;> rfl
    rw [hmap]
    have := hspec.2
    simpa [scanAlts] using this
  constructor
  · intro hne
    have hpos : 0 < (scanAlts message).length := List.length_pos.mpr hne
    have hne2 : scanAltsF message.length message ≠ [] := hne
    have hsome : (execAltSuffix message).isSome = true :=
      Option.isSome_iff_ne_none.mpr
        (fun hc => hne2 ((scanAlts_nil_iff message).mpr hc))
    refine ⟨?_, ?_⟩
    · have hif : (if (jsExecAlt message
            (altLoopF (message.length + 1) message message []).2).1.isSome = true
            then strJ ", ..." else ([] : JStr))
          = (if (scanAlts message).length = 6 then []
            else strJ ", ...") := by
        by_cases h6 : (scanAlts message).length = 6
        · rw [if_pos h6, if_neg]
          rw [h2]
          rintro (⟨ha, _⟩ | ha) <;> omega
        · rw [if_neg h6, if_pos]
          rw [h2]
          rcases Nat.lt_or_ge (scanAlts message).length 6 with h | h
          · exact Or.inl ⟨by omega, hsome⟩
          · exact Or.inr (by omega)
      simp only [simplifyParserError, hshape, if_true]
      rw [h1, hif, if_pos]
      simp only [List.length_take]
      omega
    · simp only [List.length_take]
      omega
  · intro hnil
    simp only [simplifyParserError, hshape, if_true]
    rw [h1, hnil]
    simp

set_option maxRecDepth 16000 in
/-- C8 counterexample: with two alternatives `, ...` is appended even
though no further alternatives exist, and with exactly six alternatives it
is omitted even though a sixth (more than five) exists, refuting
the claimed appending of `, ...` exactly when more alternatives exist in
both directions. -/
theorem c8_counterexample :
    scanAlts (strJ "Expecting: one of:\n  1. [A]\n  2. [B]\nbut found: 'x'")
        = [strJ "A", strJ "B"]
    ∧ simplifyParserError
        (strJ "Expecting: one of:\n  1. [A]\n  2. [B]\nbut found: 'x'")
        = strJ "Unexpected 'x'. Expected: A, B, ..."
    ∧ (scanAlts (strJ "Expecting: one of:\n  1. [A]\n  2. [B]\n  3. [C]\n  4. [D]\n  5. [E]\n  6. [F]\nbut found: 'x'")).length = 6
    ∧ simplifyParserError
        (strJ "Expecting: one of:\n  1. [A]\n  2. [B]\n  3. [C]\n  4. [D]\n  5. [E]\n  6. [F]\nbut found: 'x'")
        = strJ "Unexpected 'x'. Expected: A, B, C, D, E" := by
  decide

set_option maxRecDepth 16000 in
/-- Witness for C8 (amended): the two-alternative message yields the two
captures followed by `, ...`, and an `Expecting…:` message with no
bracketed alternatives and more than 200 characters is truncated. -/
theorem c8_amended_witness :
    simplifyParserError
        (strJ "Expecting: one of:\n  1. [A]\n  2. [B]\nbut found: 'x'")
      = strJ "Unexpected 'x'. Expected: A, B, ..."
    ∧ simplifyParserError (strJ "Expecting tokens: " ++ List.replicate 300 'q')
      = (strJ "Expecting tokens: " ++ List.replicate 300 'q').take 200
          ++ strJ "..." := by
  constructor
  · have h := ((c8_amended
      (strJ "Expecting: one of:\n  1. [A]\n  2. [B]\nbut found: 'x'")
      (by decide)).1 (by decide)).1
    rw [h]
    decide
  · have h := (c8_amended
      (strJ "Expecting tokens: " ++ List.replicate 300 'q')
      (by decide)).2 (by decide)
    rw [h]
    rw [if_pos (by decide)]

end SysML
